import Mathlib

/-!
# Nutrease — shallow embedding and verification

A shallow embedding of the Nutrease nutrition-diary core
(`nutrease/models/diary.py`, `nutrease/models/record.py`,
`nutrease/models/user.py`, `nutrease/services/dataset_service.py`) with
proofs about its specification.

Modelling conventions:
* Python `float` values are modelled as exact rationals (`ℚ`).
* Python strings are modelled as lists of Unicode code points (`List Nat`);
  `str.lower` / `str.upper` are modelled on the ASCII letter range (the
  dataset keys and unit names the code handles are ASCII).
* Timezone-aware `datetime` values are modelled as a day index from a fixed
  epoch that falls on a Monday (so `weekday = day % 7`, matching
  `datetime.date.weekday`) plus the microsecond of day.  All datetimes in
  the app live in the single fixed zone `LOCAL_TZ`, so zone handling is a
  no-op in the model.
* Fallible Python code (raising `KeyError` / `ValueError`) returns `Option`.
-/

namespace Nutrease

/-- An instant in the app's fixed local timezone: `day` counts calendar days
from an epoch falling on a Monday, `usec` is the microsecond of that day. -/
structure DateTime where
  day : Nat
  usec : Nat
deriving DecidableEq, Repr

/-- `datetime.date.weekday`: 0 = Monday … 6 = Sunday, with the model's epoch
on a Monday. -/
def weekday (d : Nat) : Nat := d % 7

/-- Microsecond of day for a wall-clock `hour:minute` (seconds = 0), as
produced by `datetime.combine(date, time(hour, minute))`. -/
def timeUsec (hour minute : Nat) : Nat := (hour * 60 + minute) * 60 * 1000000

/-- Strict order on instants (lexicographic on day, then microsecond). -/
def DateTime.lt (t u : DateTime) : Prop :=
  t.day < u.day ∨ (t.day = u.day ∧ t.usec < u.usec)

/-- Non-strict order on instants. -/
def DateTime.le (t u : DateTime) : Prop :=
  t.day < u.day ∨ (t.day = u.day ∧ t.usec ≤ u.usec)

instance : LT DateTime := ⟨DateTime.lt⟩

instance : LE DateTime := ⟨DateTime.le⟩

instance (t u : DateTime) : Decidable (t < u) :=
  decidable_of_iff (t.day < u.day ∨ (t.day = u.day ∧ t.usec < u.usec)) Iff.rfl

instance (t u : DateTime) : Decidable (t ≤ u) :=
  decidable_of_iff (t.day < u.day ∨ (t.day = u.day ∧ t.usec ≤ u.usec)) Iff.rfl

/-- `AlarmConfig` (`nutrease/models/diary.py`): recurring reminder with the
`date.weekday` convention for `days` (0 = Monday). -/
structure AlarmConfig where
  hour : Nat := 8
  minute : Nat := 0
  enabled : Bool := true
  days : List Nat := [0, 1, 2, 3, 4, 5, 6]
deriving DecidableEq, Repr

/-- `AlarmConfig.next_activation`: `None` if disabled or no weekday enabled;
otherwise scan offsets 0‥7 from `now`'s date, skip days whose weekday is not
active, and return the first candidate `hour:minute` strictly after `now`.
(The Python loop `continue`s both on a wrong weekday and on a non-future
candidate, which is exactly `findSome?` of the guarded candidate.) -/
def nextActivation (cfg : AlarmConfig) (now : DateTime) : Option DateTime :=
  if cfg.enabled = false ∨ cfg.days = [] then none
  else
    (List.range 8).findSome? (fun offset =>
      let candidate : DateTime := ⟨now.day + offset, timeUsec cfg.hour cfg.minute⟩
      if weekday (now.day + offset) ∈ cfg.days ∧ now < candidate then some candidate
      else none)

/-- A timestamp qualifying as a trigger for `cfg` within the 8-day scan
window starting at `now`'s date: at most 7 days ahead, on an active weekday,
at the configured `hour:minute`, strictly after `now`. -/
def qualifies (cfg : AlarmConfig) (now t : DateTime) : Prop :=
  now.day ≤ t.day ∧ t.day ≤ now.day + 7 ∧ weekday t.day ∈ cfg.days ∧
    t.usec = timeUsec cfg.hour cfg.minute ∧ now < t

instance (cfg : AlarmConfig) (now t : DateTime) : Decidable (qualifies cfg now t) := by
  unfold qualifies; infer_instance

/-- A diary record (`nutrease/models/record.py` base class `Record`): only
the fields relevant to the diary-day invariant are modelled; dataclass
equality is structural equality. -/
structure Record where
  id : Nat
  createdAt : DateTime
deriving DecidableEq, Repr

/-- `DailyDiary` (`nutrease/models/diary.py`): records of a single calendar
day (the `patient` back-reference is irrelevant to the claims). -/
structure DailyDiary where
  day : Nat
  records : List Record
deriving DecidableEq, Repr

/-- The spec's diary invariant: every contained record's creation timestamp
falls on the diary's day. -/
def diaryInvariant (d : DailyDiary) : Prop :=
  ∀ r ∈ d.records, r.createdAt.day = d.day

instance (d : DailyDiary) : Decidable (diaryInvariant d) :=
  decidable_of_iff (∀ r ∈ d.records, r.createdAt.day = d.day) Iff.rfl

/-- `DailyDiary.add_record`: raises (`none`) when the record's creation date
differs from the diary's day, otherwise appends. -/
def addRecord (d : DailyDiary) (r : Record) : Option DailyDiary :=
  if r.createdAt.day ≠ d.day then none
  else some { d with records := d.records ++ [r] }

/-- `DailyDiary.modify_record`: `records.index(old)` raises (`none`) when
`old` is absent; then raises when `new`'s creation date differs from the
diary's day; otherwise replaces in place. -/
def modifyRecord (d : DailyDiary) (old new : Record) : Option DailyDiary :=
  match d.records.findIdx? (fun r => r == old) with
  | none => none
  | some i =>
    if new.createdAt.day ≠ d.day then none
    else some { d with records := d.records.set i new }

/-- `Patient.register_record` (`nutrease/models/user.py`): adds `record` to
the diary of `workDate`, creating the diary (containing the record, with no
date check) when absent; the new diary is appended after the existing ones. -/
def registerRecord : List DailyDiary → Nat → Record → Option (List DailyDiary)
  | [], workDate, r => some [{ day := workDate, records := [r] }]
  | d :: ds, workDate, r =>
    if d.day = workDate then (addRecord d r).map (· :: ds)
    else (registerRecord ds workDate r).map (d :: ·)

/-! ## Strings and `difflib` fuzzy matching

Python strings are lists of Unicode code points; Python string comparison
(used by `heapq.nlargest` on `(score, word)` pairs) is the lexicographic
order on code points, i.e. the `List Nat` linear order. -/

/-- A Python string as its list of code points. -/
abbrev Str := List Nat

/-- Code points of a Lean string literal (for concrete inputs). -/
def str (s : String) : Str := s.toList.map Char.toNat

/-- `str.lower` on one code point, on the ASCII letter range the code
handles. -/
def lowerCp (n : Nat) : Nat := if 65 ≤ n ∧ n ≤ 90 then n + 32 else n

/-- `str.upper` on one code point (ASCII letters). -/
def upperCp (n : Nat) : Nat := if 97 ≤ n ∧ n ≤ 122 then n - 32 else n

/-- `str.lower`. -/
def pyLower (s : Str) : Str := s.map lowerCp

/-- `str.upper`. -/
def pyUpper (s : Str) : Str := s.map upperCp

/-- ASCII whitespace, for `str.strip`. -/
def isSpaceCp (n : Nat) : Bool := n == 32 || (9 ≤ n && n ≤ 13)

/-- `str.strip`. -/
def pyStrip (s : Str) : Str :=
  ((s.dropWhile isSpaceCp).reverse.dropWhile isSpaceCp).reverse

/-- `SequenceMatcher` autojunk: when `b` has length ≥ 200, elements
occurring more than `len(b) // 100 + 1` times in `b` are "popular" and
removed from the position index `b2j`. -/
def popular (b : Str) (x : Nat) : Bool :=
  200 ≤ b.length && b.length / 100 + 1 < b.count x

/-- One `i`-row of `find_longest_match`: `row` is the previous `j2len`
(length of the common run ending at `(i-1, j)`, densely indexed by `j`),
and the best `(besti, bestj, bestsize)` is updated on a strictly larger run
length while scanning `j` ascending — so the earliest `(i, j)` attaining
the maximum wins, as in `difflib`. -/
def flmStep (a b : Str) (blo bhi : Nat) (acc : (Nat × Nat × Nat) × List Nat) (i : Nat) :
    (Nat × Nat × Nat) × List Nat :=
  (List.range b.length).foldl
    (fun acc2 j =>
      if blo ≤ j ∧ j < bhi ∧ b.getD j 0 = a.getD i 0 ∧ popular b (b.getD j 0) = false then
        let k := (if j = 0 then 0 else acc.2.getD (j - 1) 0) + 1
        ((if acc2.1.2.2 < k then (i + 1 - k, j + 1 - k, k) else acc2.1), acc2.2 ++ [k])
      else (acc2.1, acc2.2 ++ [0]))
    (acc.1, [])

/-- The dynamic-programming phase of `find_longest_match` over rows
`i ∈ [alo, ahi)`, starting from the empty `j2len` and best
`(alo, blo, 0)`. -/
def flmCore (a b : Str) (alo ahi blo bhi : Nat) : Nat × Nat × Nat :=
  ((List.range' alo (ahi - alo)).foldl (flmStep a b blo bhi)
    ((alo, blo, 0), List.replicate b.length 0)).1

/-- First extension loop of `find_longest_match`: grow the best block
downwards over adjacent equal elements (the `isjunk` set is empty for
`get_close_matches`, so the junk test is vacuous; popular elements are
allowed here, as in `difflib`).  The fuel `bi` bounds the loop, which
decrements `bi` each iteration. -/
def extLo : Nat → Str → Str → Nat → Nat → Nat → Nat → Nat
  | 0, _, _, _, _, _, _ => 0
  | fuel + 1, a, b, alo, blo, bi, bj =>
    if alo < bi ∧ blo < bj ∧ a.getD (bi - 1) 0 = b.getD (bj - 1) 0 then
      extLo fuel a b alo blo (bi - 1) (bj - 1) + 1
    else 0

/-- Second extension loop of `find_longest_match`: grow the best block
upwards over adjacent equal elements.  The fuel `ahi - (bi + k)` bounds the
loop, which increments `k` each iteration. -/
def extHi : Nat → Str → Str → Nat → Nat → Nat → Nat → Nat → Nat
  | 0, _, _, _, _, _, _, _ => 0
  | fuel + 1, a, b, ahi, bhi, bi, bj, k =>
    if bi + k < ahi ∧ bj + k < bhi ∧ a.getD (bi + k) 0 = b.getD (bj + k) 0 then
      extHi fuel a b ahi bhi bi bj (k + 1) + 1
    else 0

/-- `SequenceMatcher.find_longest_match` (no junk function; autojunk on, as
`get_close_matches` constructs `SequenceMatcher()`): DP phase, then the two
extension loops.  The final junk-extension loops of `difflib` are vacuous
because the junk set is empty. -/
def findLongestMatch (a b : Str) (alo ahi blo bhi : Nat) : Nat × Nat × Nat :=
  let core := flmCore a b alo ahi blo bhi
  let e := extLo core.1 a b alo blo core.1 core.2.1
  let bi := core.1 - e
  let bj := core.2.1 - e
  let k := core.2.2 + e
  (bi, bj, k + extHi (ahi - (bi + k)) a b ahi bhi bi bj k)

/-- Total size of the Ratcliff–Obershelp matching blocks
(`get_matching_blocks` recursion; adjacent-block merging does not change
the total).  Each recursive call strictly shrinks the `a`-interval, so a
fuel of `a.length + 1` at the top level never runs out. -/
def matchSumF : Nat → Str → Str → Nat → Nat → Nat → Nat → Nat
  | 0, _, _, _, _, _, _ => 0
  | fuel + 1, a, b, alo, ahi, blo, bhi =>
    let m := findLongestMatch a b alo ahi blo bhi
    if m.2.2 = 0 then 0
    else
      matchSumF fuel a b alo m.1 blo m.2.1 + m.2.2 +
        matchSumF fuel a b (m.1 + m.2.2) ahi (m.2.1 + m.2.2) bhi

/-- Total matched elements between `a` and `b`. -/
def matchSum (a b : Str) : Nat := matchSumF (a.length + 1) a b 0 a.length 0 b.length

/-- `SequenceMatcher.ratio()`: `2*M / T` as an exact rational (`T = 0`
yields `1.0` in `difflib._calculate_ratio`).  `get_close_matches` also
pre-filters by `real_quick_ratio` and `quick_ratio`, which are upper bounds
of `ratio`, so its filter is equivalent to `ratio ≥ cutoff`. -/
def ratio (a b : Str) : ℚ :=
  if a.length + b.length = 0 then 1
  else (2 * matchSum a b : ℚ) / (a.length + b.length)

/-- The strict order `heapq.nlargest` uses on the `(score, word)` pairs of
`get_close_matches`: lexicographic on the rational score, then the Python
string order. -/
def scoreLt (q p : ℚ × Str) : Prop := q.1 < p.1 ∨ (q.1 = p.1 ∧ q.2 < p.2)

instance (q p : ℚ × Str) : Decidable (scoreLt q p) := by
  unfold scoreLt; infer_instance

/-- The running maximum `heapq.nlargest(1, result)` keeps: a strictly
larger `(score, word)` pair replaces the current best. -/
def pickMax (best : Option (ℚ × Str)) (p : ℚ × Str) : Option (ℚ × Str) :=
  match best with
  | none => some p
  | some q => if scoreLt q p then some p else some q

/-- `difflib.get_close_matches(word, possibilities, n=1, cutoff)`: score
every possibility against `word`, keep those reaching `cutoff`, and return
the single largest by `(score, word)` (what `heapq.nlargest(1, ...)` keeps),
or `none` when no possibility clears the cutoff. -/
def getCloseMatches1 (word : Str) (possibilities : List Str) (cutoff : ℚ) : Option Str :=
  ((possibilities.filterMap fun x =>
      if cutoff ≤ ratio x word then some (ratio x word, x) else none).foldl
    pickMax none).map (fun p => p.2)

/-! ## Dataset service (`nutrease/services/dataset_service.py`) and
portion/meal models (`nutrease/models/record.py`) -/

/-- `nutrease.models.enums.Unit`. -/
inductive Unit
  | GRAMS | GLASS | ITEM | CLOVE | LITERS | SLICE | SPOON | CUP
deriving DecidableEq, Repr

/-- `nutrease.models.enums.Nutrient`. -/
inductive Nutrient
  | LACTOSE | SORBITOL | GLUTEN
deriving DecidableEq, Repr

/-- `n.name.lower()`: the dataset column name of a nutrient. -/
def nutrCol : Nutrient → Str
  | .LACTOSE => str "lactose"
  | .SORBITOL => str "sorbitol"
  | .GLUTEN => str "gluten"

/-- The `Nutrient` enumeration in iteration order. -/
def nutrientList : List Nutrient := [.LACTOSE, .SORBITOL, .GLUTEN]

/-- `Unit.from_str` on an already stripped/uppercased string (`from_str`
strips and uppercases again, which is idempotent): member lookup by name,
`ValueError` → `none`. -/
def unitFromStr (s : Str) : Option Unit :=
  if s = str "GRAMS" then some .GRAMS
  else if s = str "GLASS" then some .GLASS
  else if s = str "ITEM" then some .ITEM
  else if s = str "CLOVE" then some .CLOVE
  else if s = str "LITERS" then some .LITERS
  else if s = str "SLICE" then some .SLICE
  else if s = str "SPOON" then some .SPOON
  else if s = str "CUP" then some .CUP
  else none

/-- One CSV row as `_load` sees it after pandas parsing and lowercase column
normalisation: `none` is a missing `grams`/`unit` column (`row.get`
default) or a missing/blank nutrient cell. -/
structure Row where
  food_name : Str
  unit : Option Str := none
  grams : Option ℚ := none
  nutr : Nutrient → Option ℚ := fun _ => none

/-- The state `_load` builds: `foods` is `self._nutrients.keys()` in
insertion order (`setdefault` gives every non-blank food a key, even with
no nutrient columns), `dens` the per-gram densities
(`food → column → value/grams`), `unitG` the grams-per-unit table. -/
structure Dataset where
  foods : List Str
  dens : Str → Str → Option ℚ
  unitG : Str → Unit → Option ℚ

/-- `str(row.get("food_name", "")).strip().lower()`. -/
def rowFood (r : Row) : Str := pyLower (pyStrip r.food_name)

/-- `float(row.get("grams", 1.0)) or 1.0`. -/
def rowGrams (r : Row) : ℚ :=
  let g := r.grams.getD 1
  if g = 0 then 1 else g

/-- `str(row.get("unit", "GRAMS")).strip().upper() or "GRAMS"`, parsed by
`Unit.from_str` with the `Unit.GRAMS` fallback on `ValueError`. -/
def rowUnit (r : Row) : Unit :=
  let v := pyUpper (pyStrip (r.unit.getD (str "GRAMS")))
  (unitFromStr (if v = [] then str "GRAMS" else v)).getD .GRAMS

/-- The per-nutrient-column update of `_load`'s row loop: when the row has
nutrient column `n`, store `value / grams` under the row's food and that
column. -/
def densStep (r : Row) (food : Str) (grams : ℚ) (dn : Str → Str → Option ℚ)
    (n : Nutrient) : Str → Str → Option ℚ :=
  match r.nutr n with
  | some v => fun f c => if f = food ∧ c = nutrCol n then some (v / grams) else dn f c
  | none => dn

/-- One iteration of `_load`'s row loop: skip blank food names; otherwise
add the food key, store `value / grams` for each present nutrient column
and `grams` for the row's unit (plain dict assignment: the last row wins). -/
def loadRow (ds : Dataset) (r : Row) : Dataset :=
  if rowFood r = [] then ds
  else
    { foods := if rowFood r ∈ ds.foods then ds.foods else ds.foods ++ [rowFood r]
      dens := nutrientList.foldl (densStep r (rowFood r) (rowGrams r)) ds.dens
      unitG := fun f u =>
        if f = rowFood r ∧ u = rowUnit r then some (rowGrams r) else ds.unitG f u }

/-- `AlimentazioneDataset._load` over the parsed CSV rows. -/
def loadDataset (rows : List Row) : Dataset :=
  rows.foldl loadRow { foods := [], dens := fun _ _ => none, unitG := fun _ _ => none }

/-- `AlimentazioneDataset._match_food`: lowercase the query, exact key test,
else `get_close_matches(key, keys, n=1, cutoff=0.6)`; `none` is the raised
`KeyError`. -/
def matchFood (ds : Dataset) (foodName : Str) : Option Str :=
  if pyLower foodName ∈ ds.foods then some (pyLower foodName)
  else getCloseMatches1 (pyLower foodName) ds.foods (3 / 5)

/-- `AlimentazioneDataset.lookup`: the nutrient-density mapping of the
matched food (the `lru_cache` memoisation does not change the pure
result). -/
def lookup (ds : Dataset) (foodName : Str) : Option (Str → Option ℚ) :=
  (matchFood ds foodName).map ds.dens

/-- `AlimentazioneDataset.get_grams_per_unit`: `KeyError` (`none`) when the
food cannot be matched or the matched food has no entry for `u`. -/
def getGramsPerUnit (ds : Dataset) (foodName : Str) (u : Unit) : Option ℚ :=
  (matchFood ds foodName).bind fun k => ds.unitG k u

/-- `NutrientIntake`: a frozen (nutrient, grams) snapshot of a portion. -/
structure NutrientIntake where
  nutrient : Nutrient
  grams : ℚ
deriving DecidableEq

/-- `FoodPortion.to_grams`: `get_grams_per_unit * quantity`, silently
falling back to the bare quantity on `KeyError`; it is total (never
raises). -/
def toGrams (ds : Dataset) (foodName : Str) (quantity : ℚ) (u : Unit) : ℚ :=
  match getGramsPerUnit ds foodName u with
  | some g => g * quantity
  | none => quantity

/-- The `lookup` result `__post_init__` works with: the matched food's
density mapping, or the empty mapping when `lookup` raised `KeyError`. -/
def portionLookup (ds : Dataset) (foodName : Str) : Str → Option ℚ :=
  match lookup ds foodName with
  | some m => m
  | none => fun _ => none

/-- `FoodPortion.__post_init__` when no nutrients were supplied: look the
food up (`KeyError` → empty mapping), convert the portion to grams, and
keep one `NutrientIntake` per nutrient of positive density (`lookup.get`
with default `0.0`). -/
def portionNutrients (ds : Dataset) (foodName : Str) (quantity : ℚ) (u : Unit) :
    List NutrientIntake :=
  (nutrientList.filter fun n =>
      decide (0 < (portionLookup ds foodName (nutrCol n)).getD 0)).map
    fun n => { nutrient := n,
               grams := toGrams ds foodName quantity u *
                 (portionLookup ds foodName (nutrCol n)).getD 0 }

/-- `FoodPortion`: food + quantity + unit + frozen nutrient snapshots. -/
structure FoodPortion where
  food_name : Str
  quantity : ℚ
  unit : Unit
  nutrients : List NutrientIntake
deriving DecidableEq

/-- `FoodPortion(food_name=..., quantity=..., unit=...)` construction with
the dataset-backed `__post_init__`. -/
def mkPortion (ds : Dataset) (foodName : Str) (quantity : ℚ) (u : Unit) : FoodPortion :=
  { food_name := foodName, quantity := quantity, unit := u,
    nutrients := portionNutrients ds foodName quantity u }

/-- `MealRecord.get_nutrient_total`: sum of `ni.grams` over every intake of
every portion whose nutrient matches. -/
def getNutrientTotal (portions : List FoodPortion) (n : Nutrient) : ℚ :=
  (((portions.map fun p => p.nutrients).flatten.filter fun ni =>
      decide (ni.nutrient = n)).map fun ni => ni.grams).sum

/-- The spec's running example row:
`food_name=mela, unit=ITEM, grams=150, sorbitol=2.1`. -/
def melaRow : Row :=
  { food_name := str "mela", unit := some (str "ITEM"), grams := some 150,
    nutr := fun n => match n with | .SORBITOL => some (21 / 10) | _ => none }

/-- The dataset loaded from the single example row. -/
def demoDs : Dataset := loadDataset [melaRow]

/-- A row with no `grams` column. -/
def noGramsRow : Row :=
  { food_name := str "acqua",
    nutr := fun n => match n with | Nutrient.LACTOSE => some 3 | _ => none }

/-- A row whose `grams` cell is 0. -/
def zeroGramsRow : Row := { food_name := str "pane", grams := some 0 }

/-! ## Theorems -/

-- Generic facts about `findSome?` over `List.range`.

theorem findSome_cons {α β : Type} (f : α → Option β) (a : α) (l : List α) :
    (a :: l).findSome? f = match f a with | some b => some b | none => l.findSome? f := rfl

theorem range_findSome_eq_none {β : Type} :
    ∀ (n : Nat) (f : Nat → Option β),
      (List.range n).findSome? f = none ↔ ∀ k, k < n → f k = none := by
  intro n
  induction n with
  | zero => intro f; simp [List.range_zero]
  | succ m ih =>
    intro f
    rw [List.range_succ_eq_map, findSome_cons]
    cases hf0 : f 0 with
    | some b =>
      simp only [List.findSome?]
      constructor
      · intro h; cases h
      · intro h; exact absurd hf0 (by rw [h 0 (Nat.succ_pos m)]; simp)
    | none =>
      rw [List.findSome?_map]
      constructor
      · intro h k hk
        cases k with
        | zero => exact hf0
        | succ j =>
          have := (ih (fun j => f (j + 1))).mp (by simpa [Function.comp] using h)
          simpa using this j (Nat.lt_of_succ_lt_succ hk)
      · intro h
        have : (List.range m).findSome? (fun j => f (j + 1)) = none :=
          (ih (fun j => f (j + 1))).mpr (fun j hj => h (j + 1) (Nat.succ_lt_succ hj))
        simpa [Function.comp] using this

theorem range_findSome_eq_some {β : Type} :
    ∀ (n : Nat) (f : Nat → Option β) (b : β),
      (List.range n).findSome? f = some b ↔
        ∃ k, k < n ∧ f k = some b ∧ ∀ j, j < k → f j = none := by
  intro n
  induction n with
  | zero => intro f b; simp [List.range_zero]
  | succ m ih =>
    intro f b
    rw [List.range_succ_eq_map, findSome_cons]
    cases hf0 : f 0 with
    | some c =>
      simp only []
      constructor
      · intro h
        refine ⟨0, Nat.succ_pos m, ?_, fun j hj => absurd hj (Nat.not_lt_zero j)⟩
        rw [hf0]; exact h
      · rintro ⟨k, _, hfk, hmin⟩
        cases k with
        | zero => rw [hf0] at hfk; exact hfk
        | succ j => exact absurd hf0 (by rw [hmin 0 (Nat.succ_pos j)]; simp)
    | none =>
      rw [List.findSome?_map]
      have hmap : (List.range m).findSome? (f ∘ Nat.succ) =
          (List.range m).findSome? (fun j => f (j + 1)) := rfl
      rw [hmap, ih (fun j => f (j + 1)) b]
      constructor
      · rintro ⟨k, hk, hfk, hmin⟩
        refine ⟨k + 1, Nat.succ_lt_succ hk, hfk, ?_⟩
        intro j hj
        cases j with
        | zero => exact hf0
        | succ i => exact hmin i (Nat.lt_of_succ_lt_succ hj)
      · rintro ⟨k, hk, hfk, hmin⟩
        cases k with
        | zero => rw [hf0] at hfk; cases hfk
        | succ i =>
          exact ⟨i, Nat.lt_of_succ_lt_succ hk, hfk,
            fun j hj => hmin (j + 1) (Nat.succ_lt_succ hj)⟩

theorem DateTime.lt_def {t u : DateTime} :
    t < u ↔ (t.day < u.day ∨ (t.day = u.day ∧ t.usec < u.usec)) := Iff.rfl

theorem DateTime.le_def {t u : DateTime} :
    t ≤ u ↔ (t.day < u.day ∨ (t.day = u.day ∧ t.usec ≤ u.usec)) := Iff.rfl

theorem DateTime.eq_def {t u : DateTime} : t = u ↔ (t.day = u.day ∧ t.usec = u.usec) := by
  cases t; cases u; simp

theorem nextActivation_eq (cfg : AlarmConfig) (now : DateTime)
    (h : ¬(cfg.enabled = false ∨ cfg.days = [])) :
    nextActivation cfg now = (List.range 8).findSome? (fun offset =>
      if weekday (now.day + offset) ∈ cfg.days ∧
          now < (⟨now.day + offset, timeUsec cfg.hour cfg.minute⟩ : DateTime) then
        some (⟨now.day + offset, timeUsec cfg.hour cfg.minute⟩ : DateTime)
      else none) := by
  unfold nextActivation
  rw [if_neg h]

/-- C1: `next_activation` returns `none` if the alarm is disabled or no
weekday is active; otherwise `some t` exactly when `t` is the earliest
timestamp strictly after `now` on an active weekday at the configured
`hour:minute` within the 8-day scan window starting at `now`'s date, and a
timestamp equal to `now` is never returned. -/
theorem alarm_next_activation_spec (cfg : AlarmConfig) (now : DateTime) :
    ((cfg.enabled = false ∨ cfg.days = []) → nextActivation cfg now = none)
  ∧ (∀ t, nextActivation cfg now = some t ↔
      (cfg.enabled = true ∧ cfg.days ≠ [] ∧ qualifies cfg now t ∧
        ∀ u, qualifies cfg now u → t ≤ u))
  ∧ (∀ t, nextActivation cfg now = some t → t ≠ now) := by
  by_cases hg : cfg.enabled = false ∨ cfg.days = []
  · have hres : nextActivation cfg now = none := by unfold nextActivation; rw [if_pos hg]
    refine ⟨fun _ => hres, ?_, ?_⟩
    · intro t
      rw [hres]
      constructor
      · intro h; cases h
      · rintro ⟨hen, hdays, -, -⟩
        rcases hg with h | h
        · rw [hen] at h; cases h
        · exact absurd h hdays
    · intro t ht; rw [hres] at ht; cases ht
  · have hen : cfg.enabled = true := by
      cases h : cfg.enabled
      · exact absurd (Or.inl h) hg
      · rfl
    have hdays : cfg.days ≠ [] := fun h => hg (Or.inr h)
    have hmain : ∀ t, nextActivation cfg now = some t ↔
        (cfg.enabled = true ∧ cfg.days ≠ [] ∧ qualifies cfg now t ∧
          ∀ u, qualifies cfg now u → t ≤ u) := by
      intro t
      rw [nextActivation_eq cfg now hg, range_findSome_eq_some]
      constructor
      · rintro ⟨k, hk8, hfk, hmin⟩
        by_cases hc : weekday (now.day + k) ∈ cfg.days ∧
            now < (⟨now.day + k, timeUsec cfg.hour cfg.minute⟩ : DateTime)
        · rw [if_pos hc] at hfk
          obtain ⟨hw, hlt⟩ := hc
          have ht : t = ⟨now.day + k, timeUsec cfg.hour cfg.minute⟩ :=
            (Option.some.injEq _ _ ▸ hfk).symm
          refine ⟨hen, hdays, ?_, ?_⟩
          · rw [ht]
            exact ⟨Nat.le_add_right _ _, by dsimp only; omega, hw, rfl, hlt⟩
          · intro u hu
            obtain ⟨hu1, hu2, hu3, hu4, hu5⟩ := hu
            have hud : u.day = now.day + (u.day - now.day) := by omega
            have huj : u = ⟨now.day + (u.day - now.day), timeUsec cfg.hour cfg.minute⟩ :=
              DateTime.eq_def.mpr ⟨hud, hu4⟩
            have hkj : k ≤ u.day - now.day := by
              by_contra hlt2
              push_neg at hlt2
              have := hmin (u.day - now.day) hlt2
              rw [if_pos ⟨by rw [← hud]; exact hu3, by rw [← huj]; exact hu5⟩] at this
              cases this
            rw [ht, huj, DateTime.le_def]
            dsimp only
            omega
        · rw [if_neg hc] at hfk; cases hfk
      · rintro ⟨-, -, hq, hmin⟩
        obtain ⟨hq1, hq2, hq3, hq4, hq5⟩ := hq
        have htd : t.day = now.day + (t.day - now.day) := by omega
        have ht : t = ⟨now.day + (t.day - now.day), timeUsec cfg.hour cfg.minute⟩ :=
          DateTime.eq_def.mpr ⟨htd, hq4⟩
        refine ⟨t.day - now.day, by omega, ?_, ?_⟩
        · rw [if_pos ⟨by rw [← htd]; exact hq3, by rw [← ht]; exact hq5⟩, ← ht]
        · intro j hj
          rw [if_neg]
          rintro ⟨hw, hlt⟩
          have hqj : qualifies cfg now ⟨now.day + j, timeUsec cfg.hour cfg.minute⟩ :=
            ⟨Nat.le_add_right _ _, by dsimp only; omega, hw, rfl, hlt⟩
          have := hmin _ hqj
          rw [ht, DateTime.le_def] at this
          dsimp only at this
          omega
    refine ⟨fun h => absurd h hg, hmain, ?_⟩
    intro t ht
    have hq := ((hmain t).mp ht).2.2.1
    intro he
    have := hq.2.2.2.2
    rw [he, DateTime.lt_def] at this
    omega

/-- C1 witness: a disabled alarm yields `none`; an all-weekday alarm at 23:00
seen at 22:00 on day 5 yields 23:00 the same day. -/
theorem alarm_next_activation_spec_witness :
    nextActivation ⟨8, 0, false, [0, 1, 2, 3, 4, 5, 6]⟩ ⟨0, 0⟩ = none ∧
    nextActivation ⟨23, 0, true, [0, 1, 2, 3, 4, 5, 6]⟩ ⟨5, timeUsec 22 0⟩ =
      some ⟨5, timeUsec 23 0⟩ := by
  constructor
  · exact (alarm_next_activation_spec _ _).1 (Or.inl rfl)
  · refine ((alarm_next_activation_spec _ _).2.1 _).mpr ⟨rfl, by decide, by decide, ?_⟩
    intro u hu
    obtain ⟨h1, h2, h3, h4, h5⟩ := hu
    rw [DateTime.le_def]
    dsimp only at h1 h2 h4 ⊢
    simp only [timeUsec] at h4 ⊢
    omega

/-- C2 counterexample: an alarm whose only active weekday is today's
(day 5, a Saturday-like weekday 5) with configured time 23:00 already past
at `now` = 23:30 does **not** return `none`: the scan's offset 7 hits the
same weekday one week later. -/
theorem alarm_only_today_counterexample :
    (∀ d ∈ ({ hour := 23, minute := 0, enabled := true, days := [5] } : AlarmConfig).days,
        d = weekday (5 : Nat)) ∧
    ({ hour := 23, minute := 0, enabled := true, days := [5] } : AlarmConfig).days ≠ [] ∧
    timeUsec 23 0 ≤ timeUsec 23 30 ∧
    nextActivation { hour := 23, minute := 0, enabled := true, days := [5] }
      ⟨5, timeUsec 23 30⟩ = some ⟨12, timeUsec 23 0⟩ := by
  refine ⟨by decide, by decide, by decide, ?_⟩
  decide

/-- C2 amended: with the only active weekday equal to today's weekday and
today's configured time not strictly in the future, `next_activation`
returns the configured time exactly seven days later (offset 7 of the 8-day
scan lands on the same weekday), not `none`. -/
theorem alarm_only_today_next_week (cfg : AlarmConfig) (now : DateTime)
    (hen : cfg.enabled = true) (hne : cfg.days ≠ [])
    (hdays : ∀ d ∈ cfg.days, d = weekday now.day)
    (hpast : timeUsec cfg.hour cfg.minute ≤ now.usec) :
    nextActivation cfg now = some ⟨now.day + 7, timeUsec cfg.hour cfg.minute⟩ := by
  have hg : ¬(cfg.enabled = false ∨ cfg.days = []) := by
    rintro (h | h)
    · rw [hen] at h; cases h
    · exact hne h
  rw [nextActivation_eq cfg now hg, range_findSome_eq_some]
  have hmem : weekday now.day ∈ cfg.days := by
    match h : cfg.days with
    | [] => exact absurd h hne
    | d :: ds =>
      have : d = weekday now.day := hdays d (by rw [h]; exact List.mem_cons_self d ds)
      rw [← this]
      exact List.mem_cons_self d ds
  refine ⟨7, by omega, ?_, ?_⟩
  · rw [if_pos]
    constructor
    · have : weekday (now.day + 7) = weekday now.day := by simp [weekday]
      rw [this]
      exact hmem
    · rw [DateTime.lt_def]
      dsimp only
      omega
  · intro j hj
    rw [if_neg]
    rintro ⟨hw, hlt⟩
    have hwe := hdays _ hw
    simp only [weekday] at hwe
    rw [DateTime.lt_def] at hlt
    dsimp only at hlt
    omega

/-- C2 amended witness: only weekday 5 active, alarm 23:00, now day 5 at
23:30 → next activation is day 12 at 23:00. -/
theorem alarm_only_today_next_week_witness :
    nextActivation { hour := 23, minute := 0, enabled := true, days := [5] }
      ⟨5, timeUsec 23 30⟩ = some ⟨5 + 7, timeUsec 23 0⟩ :=
  alarm_only_today_next_week _ _ rfl (by decide) (by decide) (by decide)

theorem addRecord_preserves (d : DailyDiary) (r : Record) (d' : DailyDiary)
    (hinv : diaryInvariant d) (h : addRecord d r = some d') : diaryInvariant d' := by
  unfold addRecord at h
  split at h
  · cases h
  · rename_i hc
    rw [not_not] at hc
    injection h with h
    subst h
    intro x hx
    rcases List.mem_append.mp hx with h1 | h1
    · exact hinv x h1
    · rw [List.mem_singleton.mp h1]
      exact hc

theorem addRecord_rejects (d : DailyDiary) (r : Record)
    (h : r.createdAt.day ≠ d.day) : addRecord d r = none := by
  unfold addRecord
  rw [if_pos h]

theorem modifyRecord_preserves (d : DailyDiary) (old new : Record) (d' : DailyDiary)
    (hinv : diaryInvariant d) (h : modifyRecord d old new = some d') : diaryInvariant d' := by
  unfold modifyRecord at h
  split at h
  · cases h
  · split at h
    · cases h
    · rename_i hc
      rw [not_not] at hc
      injection h with h
      subst h
      intro x hx
      rcases List.mem_or_eq_of_mem_set hx with h1 | h1
      · exact hinv x h1
      · rw [h1]; exact hc

theorem modifyRecord_rejects (d : DailyDiary) (old new : Record)
    (h : new.createdAt.day ≠ d.day) : modifyRecord d old new = none := by
  unfold modifyRecord
  split
  · rfl
  · rw [if_pos h]

theorem registerRecord_preserves :
    ∀ (ds : List DailyDiary) (w : Nat) (r : Record) (ds' : List DailyDiary),
      (∀ d ∈ ds, diaryInvariant d) → (∃ d ∈ ds, d.day = w) →
      registerRecord ds w r = some ds' → ∀ d ∈ ds', diaryInvariant d := by
  intro ds
  induction ds with
  | nil =>
    intro w r ds' _ hex _
    exact absurd hex (by simp)
  | cons d rest ih =>
    intro w r ds' hinv hex hreg
    unfold registerRecord at hreg
    by_cases hday : d.day = w
    · rw [if_pos hday] at hreg
      cases hadd : addRecord d r with
      | none => rw [hadd] at hreg; cases hreg
      | some d2 =>
        rw [hadd] at hreg
        injection hreg with hreg
        subst hreg
        intro x hx
        rcases List.mem_cons.mp hx with h1 | h1
        · rw [h1]
          exact addRecord_preserves d r d2 (hinv d (List.mem_cons_self d rest)) hadd
        · exact hinv x (List.mem_cons_of_mem d h1)
    · rw [if_neg hday] at hreg
      cases hrec : registerRecord rest w r with
      | none => rw [hrec] at hreg; cases hreg
      | some rs' =>
        rw [hrec] at hreg
        injection hreg with hreg
        subst hreg
        intro x hx
        rcases List.mem_cons.mp hx with h1 | h1
        · rw [h1]
          exact hinv d (List.mem_cons_self d rest)
        · refine ih w r rs' (fun y hy => hinv y (List.mem_cons_of_mem d hy)) ?_ hrec x h1
          obtain ⟨e, he, hew⟩ := hex
          rcases List.mem_cons.mp he with h2 | h2
          · rw [h2] at hew; exact absurd hew hday
          · exact ⟨e, h2, hew⟩

/-- C9 counterexample: `Patient.register_record` with no diary for the
work date creates a new diary containing the record **without** checking the
record's date: work date 0, record created on day 1 yields a diary whose
invariant fails. -/
theorem register_record_counterexample :
    registerRecord [] 0 { id := 0, createdAt := ⟨1, 0⟩ } =
      some [{ day := 0, records := [{ id := 0, createdAt := ⟨1, 0⟩ }] }] ∧
    ¬ diaryInvariant { day := 0, records := [{ id := 0, createdAt := ⟨1, 0⟩ }] } :=
  ⟨rfl, by decide⟩

/-- C9 amended: `add_record` and `modify_record` preserve the diary-day
invariant and reject records whose creation date differs from the diary's
day; `register_record` preserves the invariant whenever a diary for the
work date already exists (when none exists it creates a diary containing
the record without a date check). -/
theorem diary_day_invariant_spec :
    (∀ (d : DailyDiary) (r : Record) (d' : DailyDiary),
        diaryInvariant d → addRecord d r = some d' → diaryInvariant d')
  ∧ (∀ (d : DailyDiary) (r : Record), r.createdAt.day ≠ d.day → addRecord d r = none)
  ∧ (∀ (d : DailyDiary) (old new : Record) (d' : DailyDiary),
        diaryInvariant d → modifyRecord d old new = some d' → diaryInvariant d')
  ∧ (∀ (d : DailyDiary) (old new : Record),
        new.createdAt.day ≠ d.day → modifyRecord d old new = none)
  ∧ (∀ (ds : List DailyDiary) (w : Nat) (r : Record) (ds' : List DailyDiary),
        (∀ d ∈ ds, diaryInvariant d) → (∃ d ∈ ds, d.day = w) →
        registerRecord ds w r = some ds' → ∀ d ∈ ds', diaryInvariant d) :=
  ⟨addRecord_preserves, addRecord_rejects, modifyRecord_preserves,
    modifyRecord_rejects, registerRecord_preserves⟩

/-- C9 amended witness: concrete instantiations of the five conjuncts. -/
theorem diary_day_invariant_spec_witness :
    diaryInvariant { day := 3, records := [{ id := 0, createdAt := ⟨3, 5⟩ }] }
  ∧ addRecord { day := 3, records := [] } { id := 1, createdAt := ⟨4, 0⟩ } = none
  ∧ diaryInvariant { day := 3, records := [{ id := 2, createdAt := ⟨3, 7⟩ }] }
  ∧ modifyRecord { day := 3, records := [] } { id := 0, createdAt := ⟨3, 5⟩ }
      { id := 1, createdAt := ⟨4, 0⟩ } = none
  ∧ ∀ d ∈ [({ day := 3, records := [{ id := 0, createdAt := ⟨3, 5⟩ }] } : DailyDiary)],
      diaryInvariant d := by
  refine ⟨?_, ?_, ?_, ?_, ?_⟩
  · exact diary_day_invariant_spec.1 { day := 3, records := [] } { id := 0, createdAt := ⟨3, 5⟩ }
      _ (by decide) (by decide)
  · exact diary_day_invariant_spec.2.1 _ _ (by decide)
  · exact diary_day_invariant_spec.2.2.1
      { day := 3, records := [{ id := 5, createdAt := ⟨3, 9⟩ }] }
      { id := 5, createdAt := ⟨3, 9⟩ } { id := 2, createdAt := ⟨3, 7⟩ }
      _ (by decide) (by decide)
  · exact diary_day_invariant_spec.2.2.2.1 _ _ _ (by decide)
  · exact diary_day_invariant_spec.2.2.2.2 [{ day := 3, records := [] }] 3
      { id := 0, createdAt := ⟨3, 5⟩ } _ (by decide)
      ⟨{ day := 3, records := [] }, by decide, rfl⟩ (by decide)

-- Order facts for the `(score, word)` comparison.

theorem scoreLt_irrefl (a : ℚ × Str) : ¬ scoreLt a a := by
  unfold scoreLt
  simp

theorem scoreLt_trans {a b c : ℚ × Str} (h1 : scoreLt a b) (h2 : scoreLt b c) :
    scoreLt a c := by
  unfold scoreLt at h1 h2 ⊢
  rcases h1 with h1 | ⟨e1, l1⟩ <;> rcases h2 with h2 | ⟨e2, l2⟩
  · exact Or.inl (lt_trans h1 h2)
  · exact Or.inl (e2 ▸ h1)
  · exact Or.inl (e1 ▸ h2)
  · exact Or.inr ⟨e1.trans e2, lt_trans l1 l2⟩

theorem scoreLt_conn {a b : ℚ × Str} (h1 : ¬ scoreLt a b) (h2 : ¬ scoreLt b a) :
    a = b := by
  unfold scoreLt at h1 h2
  push_neg at h1 h2
  obtain ⟨hq1, hs1⟩ := h1
  obtain ⟨hq2, hs2⟩ := h2
  have hq : a.1 = b.1 := le_antisymm hq2 hq1
  have hs : a.2 = b.2 := le_antisymm (hs2 hq.symm) (hs1 hq)
  exact Prod.ext hq hs

theorem pickFold_isSome (l : List (ℚ × Str)) (q : ℚ × Str) :
    (l.foldl pickMax (some q)).isSome = true := by
  induction l generalizing q with
  | nil => rfl
  | cons p rest ih =>
    rw [List.foldl_cons]
    show (rest.foldl pickMax (if scoreLt q p then some p else some q)).isSome = true
    split
    · exact ih p
    · exact ih q

theorem pickFold_spec (l : List (ℚ × Str)) (q r : ℚ × Str)
    (h : l.foldl pickMax (some q) = some r) :
    (r = q ∨ r ∈ l) ∧ ¬ scoreLt r q ∧ ∀ p ∈ l, ¬ scoreLt r p := by
  induction l generalizing q with
  | nil =>
    rw [List.foldl_nil] at h
    injection h with h
    subst h
    exact ⟨Or.inl rfl, scoreLt_irrefl q, by simp⟩
  | cons p rest ih =>
    rw [List.foldl_cons] at h
    by_cases hqp : scoreLt q p
    · rw [show pickMax (some q) p = some p by simp only [pickMax]; rw [if_pos hqp]] at h
      obtain ⟨hmem, hrp, hrest⟩ := ih p h
      refine ⟨Or.inr ?_, ?_, ?_⟩
      · rcases hmem with h1 | h1
        · rw [h1]; exact List.mem_cons_self p rest
        · exact List.mem_cons_of_mem p h1
      · intro hrq
        exact hrp (scoreLt_trans hrq hqp)
      · intro x hx
        rcases List.mem_cons.mp hx with h1 | h1
        · rw [h1]; exact hrp
        · exact hrest x h1
    · rw [show pickMax (some q) p = some q by simp only [pickMax]; rw [if_neg hqp]] at h
      obtain ⟨hmem, hrq, hrest⟩ := ih q h
      refine ⟨?_, hrq, ?_⟩
      · rcases hmem with h1 | h1
        · exact Or.inl h1
        · exact Or.inr (List.mem_cons_of_mem p h1)
      · intro x hx
        rcases List.mem_cons.mp hx with h1 | h1
        · subst h1
          intro hrx
          by_cases hpq : scoreLt x q
          · exact hrq (scoreLt_trans hrx hpq)
          · rw [scoreLt_conn hqp hpq] at hrq
            exact hrq hrx
        · exact hrest x h1

theorem getCloseMatches1_eq_none (word : Str) (l : List Str) (c : ℚ) :
    getCloseMatches1 word l c = none ↔ ∀ x ∈ l, ratio x word < c := by
  unfold getCloseMatches1
  rw [Option.map_eq_none']
  constructor
  · intro h x hx
    by_contra hlt
    push_neg at hlt
    have hmem : (ratio x word, x) ∈ l.filterMap fun x =>
        if c ≤ ratio x word then some (ratio x word, x) else none :=
      List.mem_filterMap.mpr ⟨x, hx, by rw [if_pos hlt]⟩
    cases hsc : l.filterMap fun x =>
        if c ≤ ratio x word then some (ratio x word, x) else none with
    | nil => rw [hsc] at hmem; cases hmem
    | cons p rest =>
      rw [hsc, List.foldl_cons] at h
      have := pickFold_isSome rest p
      rw [show pickMax none p = some p from rfl] at h
      rw [h] at this
      cases this
  · intro h
    have hsc : (l.filterMap fun x =>
        if c ≤ ratio x word then some (ratio x word, x) else none) = [] := by
      rw [List.filterMap_eq_nil_iff]
      intro x hx
      rw [if_neg (not_le.mpr (h x hx))]
    rw [hsc]
    rfl

theorem getCloseMatches1_eq_some (word : Str) (l : List Str) (c : ℚ) (k : Str)
    (h : getCloseMatches1 word l c = some k) :
    k ∈ l ∧ c ≤ ratio k word ∧
      ∀ x ∈ l, c ≤ ratio x word →
        ¬ scoreLt (ratio k word, k) (ratio x word, x) := by
  unfold getCloseMatches1 at h
  rw [Option.map_eq_some'] at h
  obtain ⟨pr, hpr, hk⟩ := h
  have hprops : pr ∈ (l.filterMap fun x =>
      if c ≤ ratio x word then some (ratio x word, x) else none) ∧
      ∀ p ∈ (l.filterMap fun x =>
        if c ≤ ratio x word then some (ratio x word, x) else none), ¬ scoreLt pr p := by
    cases hsc : l.filterMap fun x =>
        if c ≤ ratio x word then some (ratio x word, x) else none with
    | nil => rw [hsc, List.foldl_nil] at hpr; cases hpr
    | cons p rest =>
      rw [hsc, List.foldl_cons, show pickMax none p = some p from rfl] at hpr
      obtain ⟨hmem, hrp, hrest⟩ := pickFold_spec rest p pr hpr
      refine ⟨?_, ?_⟩
      · rcases hmem with h1 | h1
        · rw [h1]; exact List.mem_cons_self p rest
        · exact List.mem_cons_of_mem p h1
      · intro x hx
        rcases List.mem_cons.mp hx with h1 | h1
        · rw [h1]; exact hrp
        · exact hrest x h1
  obtain ⟨hmem, hmax⟩ := hprops
  obtain ⟨x, hx, hfx⟩ := List.mem_filterMap.mp hmem
  have hcx : c ≤ ratio x word := by
    by_contra hc
    rw [if_neg hc] at hfx
    cases hfx
  rw [if_pos hcx] at hfx
  injection hfx with hfx
  subst hfx
  have hk2 : k = x := by rw [← hk]
  subst hk2
  refine ⟨hx, hcx, ?_⟩
  intro y hy hcy
  have hymem : (ratio y word, y) ∈ (l.filterMap fun x =>
      if c ≤ ratio x word then some (ratio x word, x) else none) :=
    List.mem_filterMap.mpr ⟨y, hy, by rw [if_pos hcy]⟩
  exact hmax _ hymem

-- Case folding facts.

theorem lowerCp_upperCp (n : Nat) : lowerCp (upperCp n) = lowerCp n := by
  unfold lowerCp upperCp
  split_ifs <;> omega

theorem lowerCp_lowerCp (n : Nat) : lowerCp (lowerCp n) = lowerCp n := by
  unfold lowerCp
  split_ifs <;> omega

theorem pyLower_pyUpper (s : Str) : pyLower (pyUpper s) = pyLower s := by
  unfold pyLower pyUpper
  rw [List.map_map]
  exact List.map_congr_left fun n _ => lowerCp_upperCp n

theorem pyLower_pyLower (s : Str) : pyLower (pyLower s) = pyLower s := by
  unfold pyLower
  rw [List.map_map]
  exact List.map_congr_left fun n _ => lowerCp_lowerCp n

-- Concrete evaluations on the example dataset.

theorem demoDs_foods : demoDs.foods = [str "mela"] := rfl

theorem demoDs_unitG_item : demoDs.unitG (str "mela") Unit.ITEM = some 150 := rfl

theorem demoDs_unitG_glass : demoDs.unitG (str "mela") Unit.GLASS = none := rfl

theorem demoDs_dens_sorbitol :
    demoDs.dens (str "mela") (str "sorbitol") = some ((21 / 10 : ℚ) / 150) := rfl

theorem demoDs_dens_lactose : demoDs.dens (str "mela") (str "lactose") = none := rfl

theorem demoDs_dens_gluten : demoDs.dens (str "mela") (str "gluten") = none := rfl

theorem matchFood_mela : matchFood demoDs (str "mela") = some (str "mela") := rfl

theorem matchFood_MELA : matchFood demoDs (str "MELA") = some (str "mela") := rfl

theorem ratio_mela_pizza : ratio (str "mela") (str "pizza") = 2 / 9 := by
  have hm : matchSum (str "mela") (str "pizza") = 1 := by decide
  unfold ratio
  rw [hm, show (str "mela").length = 4 from rfl, show (str "pizza").length = 5 from rfl,
    if_neg (by decide)]
  push_cast
  norm_num

theorem ratio_mela_melaa : ratio (str "mela") (str "melaa") = 8 / 9 := by
  have hm : matchSum (str "mela") (str "melaa") = 4 := by decide
  unfold ratio
  rw [hm, show (str "mela").length = 4 from rfl, show (str "melaa").length = 5 from rfl,
    if_neg (by decide)]
  push_cast
  norm_num

theorem ratio_mela_xyz : ratio (str "mela") (str "xyz") = 0 := by
  have hm : matchSum (str "mela") (str "xyz") = 0 := by decide
  unfold ratio
  rw [hm, show (str "mela").length = 4 from rfl, show (str "xyz").length = 3 from rfl,
    if_neg (by decide)]
  push_cast
  norm_num

theorem matchFood_pizza : matchFood demoDs (str "pizza") = none := by
  unfold matchFood
  rw [if_neg (by decide), show pyLower (str "pizza") = str "pizza" from rfl, demoDs_foods,
    getCloseMatches1_eq_none]
  intro x hx
  rw [List.mem_singleton.mp hx, ratio_mela_pizza]
  norm_num

theorem matchFood_melaa : matchFood demoDs (str "melaa") = some (str "mela") := by
  have hge : (3 : ℚ) / 5 ≤ ratio (str "mela") (str "melaa") := by
    rw [ratio_mela_melaa]; norm_num
  unfold matchFood
  rw [if_neg (by decide), show pyLower (str "melaa") = str "melaa" from rfl, demoDs_foods]
  unfold getCloseMatches1
  simp only [List.filterMap_cons, if_pos hge, List.filterMap_nil, List.foldl_cons,
    List.foldl_nil]
  rfl

/-- C3: `to_grams` never raises — it is a total function.  With the food
present as an exact (lowercased) key and the unit recorded for it, it
returns `quantity * grams_per_unit`; when the food cannot be matched at all,
or the matched food has no entry for the unit, it returns the quantity
unchanged. -/
theorem to_grams_spec (ds : Dataset) (food : Str) (q : ℚ) (u : Unit) :
    (∀ g, pyLower food ∈ ds.foods → ds.unitG (pyLower food) u = some g →
        toGrams ds food q u = q * g)
  ∧ (matchFood ds food = none → toGrams ds food q u = q)
  ∧ (∀ k, matchFood ds food = some k → ds.unitG k u = none →
        toGrams ds food q u = q) := by
  refine ⟨?_, ?_, ?_⟩
  · intro g hmem hg
    have hgpu : getGramsPerUnit ds food u = some g := by
      unfold getGramsPerUnit matchFood
      rw [if_pos hmem]
      simpa using hg
    unfold toGrams
    rw [hgpu]
    exact mul_comm g q
  · intro h
    have hgpu : getGramsPerUnit ds food u = none := by
      unfold getGramsPerUnit
      rw [h]
      rfl
    unfold toGrams
    rw [hgpu]
  · intro k hk hku
    have hgpu : getGramsPerUnit ds food u = none := by
      unfold getGramsPerUnit
      rw [hk]
      simpa using hku
    unfold toGrams
    rw [hgpu]

/-- C3 witness: on the example dataset, `(mela, 2, ITEM)` converts to
`2 * 150`; an unknown food and a known food with an unknown unit keep their
quantity. -/
theorem to_grams_spec_witness :
    toGrams demoDs (str "mela") 2 Unit.ITEM = 2 * 150 ∧
    toGrams demoDs (str "pizza") 5 Unit.ITEM = 5 ∧
    toGrams demoDs (str "mela") 7 Unit.GLASS = 7 :=
  ⟨(to_grams_spec demoDs (str "mela") 2 Unit.ITEM).1 150 (by decide) demoDs_unitG_item,
    (to_grams_spec demoDs (str "pizza") 5 Unit.ITEM).2.1 matchFood_pizza,
    (to_grams_spec demoDs (str "mela") 7 Unit.GLASS).2.2 (str "mela") matchFood_mela
      demoDs_unitG_glass⟩

/-- C4: `lookup` is case-insensitive (uppercased and lowercased spellings
give the same mapping); `_match_food` tries the exact lowercased key first;
otherwise it fuzzy-matches over all known food keys, returning a candidate
with similarity ratio ≥ 0.6 that is largest in the `(ratio, key)` order,
and raises food-not-found exactly when no key clears the threshold. -/
theorem lookup_fuzzy_spec (ds : Dataset) (s : Str) :
    lookup ds (pyUpper s) = lookup ds (pyLower s)
  ∧ (pyLower s ∈ ds.foods → matchFood ds s = some (pyLower s))
  ∧ (pyLower s ∉ ds.foods → ∀ k, matchFood ds s = some k →
      k ∈ ds.foods ∧ 3 / 5 ≤ ratio k (pyLower s) ∧
        ∀ x ∈ ds.foods, 3 / 5 ≤ ratio x (pyLower s) →
          ¬ scoreLt (ratio k (pyLower s), k) (ratio x (pyLower s), x))
  ∧ (matchFood ds s = none ↔
      pyLower s ∉ ds.foods ∧ ∀ x ∈ ds.foods, ratio x (pyLower s) < 3 / 5) := by
  refine ⟨?_, ?_, ?_, ?_⟩
  · unfold lookup matchFood
    rw [pyLower_pyUpper, pyLower_pyLower]
  · intro h
    unfold matchFood
    rw [if_pos h]
  · intro hnot k hk
    unfold matchFood at hk
    rw [if_neg hnot] at hk
    exact getCloseMatches1_eq_some (pyLower s) ds.foods (3 / 5) k hk
  · unfold matchFood
    by_cases h : pyLower s ∈ ds.foods
    · rw [if_pos h]
      constructor
      · intro hc; cases hc
      · rintro ⟨hn, -⟩; exact absurd h hn
    · rw [if_neg h, getCloseMatches1_eq_none]
      constructor
      · intro hall; exact ⟨h, hall⟩
      · rintro ⟨-, hall⟩; exact hall

/-- C4 witness: case-insensitivity on `Mela`, exact match on `MELA`, fuzzy
match of `melaa` to `mela` (ratio `8/9 ≥ 0.6`), and not-found for `xyz`. -/
theorem lookup_fuzzy_spec_witness :
    lookup demoDs (pyUpper (str "Mela")) = lookup demoDs (pyLower (str "Mela"))
  ∧ matchFood demoDs (str "MELA") = some (pyLower (str "MELA"))
  ∧ (str "mela" ∈ demoDs.foods ∧ 3 / 5 ≤ ratio (str "mela") (pyLower (str "melaa")) ∧
      ∀ x ∈ demoDs.foods, 3 / 5 ≤ ratio x (pyLower (str "melaa")) →
        ¬ scoreLt (ratio (str "mela") (pyLower (str "melaa")), str "mela")
          (ratio x (pyLower (str "melaa")), x))
  ∧ matchFood demoDs (str "xyz") = none := by
  refine ⟨(lookup_fuzzy_spec demoDs (str "Mela")).1,
    (lookup_fuzzy_spec demoDs (str "MELA")).2.1 (by decide),
    (lookup_fuzzy_spec demoDs (str "melaa")).2.2.1 (by decide) (str "mela") matchFood_melaa,
    ((lookup_fuzzy_spec demoDs (str "xyz")).2.2.2).mpr ⟨by decide, ?_⟩⟩
  intro x hx
  rw [demoDs_foods, List.mem_singleton] at hx
  subst hx
  rw [show pyLower (str "xyz") = str "xyz" from rfl, ratio_mela_xyz]
  norm_num

/-- C5: `get_grams_per_unit` fails with not-found whenever the matched food
has no recorded entry for the requested unit (even though the food exists),
and returns the recorded grams-per-unit value when the pair is recorded;
it also fails when the food itself cannot be matched. -/
theorem get_grams_per_unit_spec (ds : Dataset) (name : Str) (u : Unit) :
    (∀ k, matchFood ds name = some k → ds.unitG k u = none →
        getGramsPerUnit ds name u = none)
  ∧ (∀ k g, matchFood ds name = some k → ds.unitG k u = some g →
        getGramsPerUnit ds name u = some g)
  ∧ (matchFood ds name = none → getGramsPerUnit ds name u = none) := by
  refine ⟨?_, ?_, ?_⟩
  · intro k hk hku
    unfold getGramsPerUnit
    rw [hk]
    simpa using hku
  · intro k g hk hku
    unfold getGramsPerUnit
    rw [hk]
    simpa using hku
  · intro h
    unfold getGramsPerUnit
    rw [h]
    rfl

/-- C5 witness: `mela` exists only with unit `ITEM` (150 g), so `GLASS`
fails while `ITEM` returns 150. -/
theorem get_grams_per_unit_spec_witness :
    getGramsPerUnit demoDs (str "mela") Unit.GLASS = none ∧
    getGramsPerUnit demoDs (str "mela") Unit.ITEM = some 150 :=
  ⟨(get_grams_per_unit_spec demoDs (str "mela") Unit.GLASS).1 (str "mela")
      matchFood_mela demoDs_unitG_glass,
    (get_grams_per_unit_spec demoDs (str "mela") Unit.ITEM).2.1 (str "mela") 150
      matchFood_mela demoDs_unitG_item⟩

/-- C7: `get_nutrient_total` is additive: the total over the concatenation
of two portion lists equals the sum of the totals, for every nutrient. -/
theorem get_nutrient_total_additive (A B : List FoodPortion) (n : Nutrient) :
    getNutrientTotal (A ++ B) n = getNutrientTotal A n + getNutrientTotal B n := by
  unfold getNutrientTotal
  rw [List.map_append, List.flatten_append, List.filter_append, List.map_append,
    List.sum_append]

-- Row-loading facts.

theorem densStep_other (r : Row) (food : Str) (grams : ℚ)
    (dn : Str → Str → Option ℚ) (n : Nutrient) (f c : Str) (hc : c ≠ nutrCol n) :
    densStep r food grams dn n f c = dn f c := by
  unfold densStep
  cases r.nutr n with
  | none => rfl
  | some v =>
    dsimp only
    rw [if_neg]
    rintro ⟨-, h⟩
    exact hc h

theorem densStep_self (r : Row) (food : Str) (grams : ℚ)
    (dn : Str → Str → Option ℚ) (n : Nutrient) (v : ℚ) (hv : r.nutr n = some v) :
    densStep r food grams dn n food (nutrCol n) = some (v / grams) := by
  unfold densStep
  rw [hv]
  dsimp only
  rw [if_pos ⟨rfl, rfl⟩]

theorem loadRow_dens (ds : Dataset) (r : Row) (n : Nutrient) (v : ℚ)
    (hf : rowFood r ≠ []) (hv : r.nutr n = some v) :
    (loadRow ds r).dens (rowFood r) (nutrCol n) = some (v / rowGrams r) := by
  unfold loadRow
  rw [if_neg hf]
  dsimp only
  simp only [nutrientList, List.foldl_cons, List.foldl_nil]
  cases n with
  | LACTOSE =>
    rw [densStep_other r (rowFood r) (rowGrams r) _ Nutrient.GLUTEN _ _ (by decide),
      densStep_other r (rowFood r) (rowGrams r) _ Nutrient.SORBITOL _ _ (by decide),
      densStep_self r (rowFood r) (rowGrams r) _ Nutrient.LACTOSE v hv]
  | SORBITOL =>
    rw [densStep_other r (rowFood r) (rowGrams r) _ Nutrient.GLUTEN _ _ (by decide),
      densStep_self r (rowFood r) (rowGrams r) _ Nutrient.SORBITOL v hv]
  | GLUTEN =>
    rw [densStep_self r (rowFood r) (rowGrams r) _ Nutrient.GLUTEN v hv]

theorem portionLookup_mela :
    portionLookup demoDs (str "mela") = demoDs.dens (str "mela") := rfl

theorem portionLookup_none (ds : Dataset) (f : Str) (h : matchFood ds f = none) :
    portionLookup ds f = fun _ => none := by
  unfold portionLookup lookup
  rw [h]
  rfl

theorem demo_portion_nutrients :
    portionNutrients demoDs (str "mela") 2 Unit.ITEM =
      [{ nutrient := Nutrient.SORBITOL,
         grams := (150 : ℚ) * 2 * ((21 / 10 : ℚ) / 150) }] := by
  have hpos : (decide ((0 : ℚ) < ((21 / 10 : ℚ) / 150))) = true := by
    rw [decide_eq_true_eq]
    positivity
  unfold portionNutrients
  rw [portionLookup_mela]
  simp only [nutrientList, nutrCol, List.filter_cons, List.filter_nil,
    demoDs_dens_lactose, demoDs_dens_sorbitol, demoDs_dens_gluten,
    Option.getD_none, Option.getD_some]
  rw [show (decide ((0 : ℚ) < 0)) = false from rfl, hpos]
  simp only [Bool.false_eq_true, if_false, if_true, List.map_cons, List.map_nil]
  rw [show toGrams demoDs (str "mela") 2 Unit.ITEM = (150 : ℚ) * 2 from rfl]
  simp only [nutrCol, demoDs_dens_sorbitol, Option.getD_some]

/-- C6: dataset construction normalizes each nutrient column by the row's
grams (stored density = row value / row grams); on the example row
(`mela, ITEM, 150 g, sorbitol 2.1`): `lookup("mela")["sorbitol"] = 2.1/150`,
`get_grams_per_unit("mela", ITEM) = 150`, the 2-ITEM portion converts to
`300` g and contributes `300 * (2.1/150) = 4.2` g of sorbitol to its meal's
total. -/
theorem dataset_normalization_spec :
    (∀ (ds : Dataset) (r : Row) (n : Nutrient) (v : ℚ),
        rowFood r ≠ [] → r.nutr n = some v →
        (loadRow ds r).dens (rowFood r) (nutrCol n) = some (v / rowGrams r))
  ∧ (lookup demoDs (str "mela")).bind (fun m => m (str "sorbitol")) =
      some ((21 / 10 : ℚ) / 150)
  ∧ getGramsPerUnit demoDs (str "mela") Unit.ITEM = some 150
  ∧ toGrams demoDs (str "mela") 2 Unit.ITEM = 300
  ∧ getNutrientTotal [mkPortion demoDs (str "mela") 2 Unit.ITEM] Nutrient.SORBITOL =
      21 / 5 := by
  refine ⟨loadRow_dens, rfl, rfl, ?_, ?_⟩
  · rw [show toGrams demoDs (str "mela") 2 Unit.ITEM = (150 : ℚ) * 2 from rfl]
    norm_num
  · unfold getNutrientTotal mkPortion
    simp only [List.map_cons, List.map_nil, demo_portion_nutrients, List.flatten_cons,
      List.flatten_nil, List.append_nil, List.filter_cons, List.filter_nil]
    simp
    norm_num

/-- C6 witness: the general normalization clause applied to the example
row. -/
theorem dataset_normalization_spec_witness :
    (loadRow demoDs melaRow).dens (rowFood melaRow) (nutrCol Nutrient.SORBITOL) =
      some ((21 / 10 : ℚ) / rowGrams melaRow) :=
  dataset_normalization_spec.1 demoDs melaRow Nutrient.SORBITOL (21 / 10) (by decide) rfl

/-- C8: a portion whose food is entirely absent from the dataset (no exact
and no fuzzy match) is constructed without error with an empty nutrient
list, and contributes 0 to `get_nutrient_total` of any meal for every
nutrient. -/
theorem absent_food_zero (ds : Dataset) (food : Str) (q : ℚ) (u : Unit)
    (ps₁ ps₂ : List FoodPortion) (n : Nutrient) (h : matchFood ds food = none) :
    (mkPortion ds food q u).nutrients = [] ∧
    getNutrientTotal (ps₁ ++ mkPortion ds food q u :: ps₂) n =
      getNutrientTotal (ps₁ ++ ps₂) n := by
  have hn : portionNutrients ds food q u = [] := by
    unfold portionNutrients
    rw [portionLookup_none ds food h]
    rfl
  refine ⟨hn, ?_⟩
  unfold getNutrientTotal mkPortion
  simp only [List.map_append, List.map_cons, hn, List.flatten_append, List.flatten_cons,
    List.nil_append]

/-- C8 witness: the unknown food `pizza` yields an empty nutrient list and
a zero contribution on the example dataset. -/
theorem absent_food_zero_witness :
    (mkPortion demoDs (str "pizza") 3 Unit.GRAMS).nutrients = [] ∧
    getNutrientTotal ([] ++ mkPortion demoDs (str "pizza") 3 Unit.GRAMS :: [])
        Nutrient.SORBITOL = getNutrientTotal ([] ++ []) Nutrient.SORBITOL :=
  absent_food_zero demoDs (str "pizza") 3 Unit.GRAMS [] [] Nutrient.SORBITOL matchFood_pizza

/-- C10: a row whose `grams` column is missing or equal to 0 is loaded as
1.0 grams: the stored grams-per-unit is 1 (never 0) and the nutrient
normalization divides by 1 (never by zero). -/
theorem grams_default_spec (ds : Dataset) (r : Row)
    (hf : rowFood r ≠ []) (hg : r.grams = none ∨ r.grams = some 0) :
    rowGrams r = 1 ∧
    (loadRow ds r).unitG (rowFood r) (rowUnit r) = some 1 ∧
    (∀ (n : Nutrient) (v : ℚ), r.nutr n = some v →
        (loadRow ds r).dens (rowFood r) (nutrCol n) = some (v / 1)) := by
  have h1 : rowGrams r = 1 := by
    unfold rowGrams
    rcases hg with h | h <;> rw [h] <;> rfl
  refine ⟨h1, ?_, ?_⟩
  · unfold loadRow
    rw [if_neg hf]
    dsimp only
    rw [if_pos ⟨rfl, rfl⟩, h1]
  · intro n v hv
    rw [loadRow_dens ds r n v hf hv, h1]

/-- C10 witness: a grams-less row and a zero-grams row both load with
grams-per-unit 1, and the grams-less row's lactose density is `3 / 1`. -/
theorem grams_default_spec_witness :
    rowGrams noGramsRow = 1 ∧
    (loadRow (loadDataset []) noGramsRow).unitG (rowFood noGramsRow) (rowUnit noGramsRow) =
      some 1 ∧
    rowGrams zeroGramsRow = 1 ∧
    (loadRow (loadDataset []) zeroGramsRow).unitG (rowFood zeroGramsRow)
      (rowUnit zeroGramsRow) = some 1 ∧
    (loadRow (loadDataset []) noGramsRow).dens (rowFood noGramsRow)
      (nutrCol Nutrient.LACTOSE) = some (3 / 1) :=
  ⟨(grams_default_spec (loadDataset []) noGramsRow (by decide) (Or.inl rfl)).1,
    (grams_default_spec (loadDataset []) noGramsRow (by decide) (Or.inl rfl)).2.1,
    (grams_default_spec (loadDataset []) zeroGramsRow (by decide) (Or.inr rfl)).1,
    (grams_default_spec (loadDataset []) zeroGramsRow (by decide) (Or.inr rfl)).2.1,
    (grams_default_spec (loadDataset []) noGramsRow (by decide) (Or.inl rfl)).2.2
      Nutrient.LACTOSE 3 rfl⟩

end Nutrease
